import Mathlib

/-!
Verification of the log4js message-rendering pipeline against its
specification.  The TypeScript sources are shallowly embedded: pure
functions become Lean functions on `List Char` / `String`, the JavaScript
regular expressions used by the code are embedded as executable matchers
with JS backtracking semantics, and the stateful parts (level gate, sink
fan-out, the once-per-process warning flag) become explicit state passing.
-/

namespace Log4js

/-! ## Log levels (`src/logger.level.ts`) -/

/-- The four severity levels of `logger.level.ts`. -/
inductive LogLevel where
  | info | warn | error | debug
deriving DecidableEq, Repr

/-- `LOG_LEVEL_PRIORITY` from `logger.level.ts`: error=0, warn=1, info=2, debug=3. -/
def LOG_LEVEL_PRIORITY : LogLevel → Nat
  | .error => 0
  | .warn => 1
  | .info => 2
  | .debug => 3

/-- `shouldLog` from `logger.level.ts`:
`LOG_LEVEL_PRIORITY[messageLevel] <= LOG_LEVEL_PRIORITY[minLevel]`. -/
def shouldLog (messageLevel minLevel : LogLevel) : Bool :=
  LOG_LEVEL_PRIORITY messageLevel ≤ LOG_LEVEL_PRIORITY minLevel

/-- The lowercase name of a level (the `LogLevel` string literal). -/
def levelName : LogLevel → String
  | .info => "info"
  | .warn => "warn"
  | .error => "error"
  | .debug => "debug"

/-! ## Character classes used by the embedded regular expressions -/

/-- JS `\w`: ASCII letters, digits and underscore. -/
def isWordChar (c : Char) : Bool :=
  c.isAlphanum || c = '_'

/-- The character class `[\w-]` of the magic-tag parameter. -/
def isParamChar (c : Char) : Bool :=
  isWordChar c || c = '-'

/-- JS `\s` restricted to the whitespace characters that occur in the
sources handled here. -/
def jsWs (c : Char) : Bool :=
  c = ' ' || c = '\t' || c = '\n' || c = '\r' || c = '\x0b' || c = '\x0c'

/-! ## The magic-tag matcher

`magicTagRegExp = /<(hl|chalk) +([\w-]+) *>([\s\S]+?)<\/\1 *>/g`
(`logger.text`/`logger.console`).  The scanner below implements exactly the
backtracking behaviour of this regular expression: the alternation is
decided by the literal tag name, the parameter is a maximal nonempty run of
`[\w-]` characters, and the non-greedy body runs up to the first position
where the matching closer `</NAME *>` occurs. -/

/-- Match a literal character sequence, returning the rest of the input. -/
def matchLit : List Char → List Char → Option (List Char)
  | [], l => some l
  | _ :: _, [] => none
  | p :: ps, c :: cs => if p = c then matchLit ps cs else none

/-- Drop literal spaces (the regex ` *`). -/
def dropSpacesL (l : List Char) : List Char :=
  l.dropWhile (· = ' ')

/-- Match the closing tag `</NAME *>` at the head of the input, returning
the input after it. -/
def matchCloseTag (name l : List Char) : Option (List Char) :=
  match matchLit ('<' :: '/' :: name) l with
  | none => none
  | some r =>
    match dropSpacesL r with
    | '>' :: rest => some rest
    | _ => none

/-- The non-greedy body `([\s\S]+?)` followed by `<\/\1 *>`: returns the
minimal nonempty body together with the input after the closer. -/
def findBody (name : List Char) : List Char → Option (List Char × List Char)
  | [] => none
  | c :: rest =>
    match matchCloseTag name rest with
    | some r => some ([c], r)
    | none =>
      match findBody name rest with
      | some (b, r) => some (c :: b, r)
      | none => none

/-- Try one branch of the alternation `(hl|chalk)` after the `<`:
match the literal name, then ` +`, then the parameter `([\w-]+)`, then
` *>`, then the non-greedy body and the matching closer. -/
def matchNamedTag (name l : List Char) : Option (List Char × List Char × List Char) :=
  match matchLit name l with
  | none => none
  | some r1 =>
    match r1 with
    | ' ' :: r2 =>
      let r3 := dropSpacesL r2
      let param := r3.takeWhile isParamChar
      if param.isEmpty then none
      else
        match dropSpacesL (r3.dropWhile isParamChar) with
        | '>' :: r4 =>
          match findBody name r4 with
          | some (body, rest) => some (param, body, rest)
          | none => none
        | _ => none
    | _ => none

/-- Match the whole magic tag at the head of the input.  Returns
`(name, param, body, rest)` on success. -/
def matchTagAt : List Char → Option (List Char × List Char × List Char × List Char)
  | '<' :: r =>
    match matchNamedTag ['h', 'l'] r with
    | some (p, b, rest) => some (['h', 'l'], p, b, rest)
    | none =>
      match matchNamedTag ['c', 'h', 'a', 'l', 'k'] r with
      | some (p, b, rest) => some (['c', 'h', 'a', 'l', 'k'], p, b, rest)
      | none => none
  | _ => none

/-- One pass of `String.replace` with the global magic-tag regexp and a
resolver `f name param body`.  Fuelled so that the definition is structural
and evaluates by `decide`/`rfl`; fuel `0` leaves the rest untouched. -/
def replaceTagsFuel (f : List Char → List Char → List Char → List Char) :
    Nat → List Char → List Char
  | 0, l => l
  | _ + 1, [] => []
  | fuel + 1, c :: rest =>
    match matchTagAt (c :: rest) with
    | some (n, p, b, r) => f n p b ++ replaceTagsFuel f fuel r
    | none => c :: replaceTagsFuel f fuel rest

/-- Global magic-tag substitution with resolver `f` (the scan consumes at
least one character per step, so `l.length` fuel is always enough). -/
def replaceTags (f : List Char → List Char → List Char → List Char)
    (l : List Char) : List Char :=
  replaceTagsFuel f l.length l

/-- Whether any position of the input matches the magic-tag pattern. -/
def hasTag : List Char → Bool
  | [] => false
  | c :: rest => (matchTagAt (c :: rest)).isSome || hasTag rest

/-- `TextBasedLogger.handleMessage`: `msg.replace(magicTagRegExp, '$3')` —
the tag is replaced by its body. -/
def handleMessage (msg : String) : String :=
  ⟨replaceTags (fun _ _ body => body) msg.data⟩

/-- `ConsoleLogger.handleMessage` as it appears in `logger.delegate.ts`:
`msg.replace(magicTagRegExp, '$2')` — the tag is replaced by its
*parameter*. -/
def delegateConsoleHandleMessage (msg : String) : String :=
  ⟨replaceTags (fun _ param _ => param) msg.data⟩

/-! ## The level gate (`logger.ts`)

`Logger.log` checks `shouldLog(level, this.minLevel)` and only then calls
`this.logInternal(level, msg, meta)`.  The concrete renderer is abstracted
as a function producing the list of observable effects of the call. -/

/-- `Logger.log` from `logger.ts`: the gate around `logInternal`. -/
def Logger.log {α β ρ : Type} (minLevel : LogLevel)
    (logInternal : LogLevel → α → Option β → List ρ)
    (level : LogLevel) (msg : α) (meta : Option β) : List ρ :=
  if shouldLog level minLevel then logInternal level msg meta else []

/-! ## The text-based render (`logger.text` / part_003) -/

/-- The three `Date` accessors `messagePrefix` reads. -/
structure JsDate where
  hours : Nat
  minutes : Nat
  seconds : Nat

/-- JS `s.padStart(2, '0')`. -/
def padStart2 (s : String) : String :=
  if s.length < 2 then (⟨List.replicate (2 - s.length) '0'⟩ : String) ++ s else s

/-- JS `toUpperCase()` on the ASCII level names. -/
def toUpperAscii (s : String) : String :=
  ⟨s.data.map Char.toUpper⟩

/-- `TextBasedLogger.messagePrefix`:
`'[' + HH + ':' + MM + ':' + SS + '] [' + name + '/' + level.toUpperCase() + ']'`. -/
def messagePrefix (name : String) (level : LogLevel) (now : JsDate) : String :=
  "[" ++ padStart2 (toString now.hours) ++ ":" ++ padStart2 (toString now.minutes)
    ++ ":" ++ padStart2 (toString now.seconds) ++ "] [" ++ name ++ "/"
    ++ toUpperAscii (levelName level) ++ "]"

/-- Scalar metadata values appearing in the claims' examples. -/
inductive YScalar where
  | num : Int → YScalar
  | str : String → YScalar
deriving DecidableEq, Repr

/-- Modelled from the spec: the block encoder applied to metadata is the
third-party `js-yaml` `dump`, which is not part of this repository.  For a
flat mapping of scalar fields — all that the spec's examples use — the
block-data notation is one `key: value` line per field, each terminated by
a newline. -/
def yamlDumpFlat (obj : List (String × YScalar)) : List Char :=
  (obj.map fun p =>
    p.1.data ++ [':', ' ']
      ++ (match p.2 with | .num n => (toString n).data | .str s => s.data)
      ++ ['\n']).foldr (· ++ ·) []

/-- JS `split('\n')`. -/
def splitOnNl : List Char → List (List Char)
  | [] => [[]]
  | c :: rest =>
    if c = '\n' then [] :: splitOnNl rest
    else
      match splitOnNl rest with
      | g :: gs => (c :: g) :: gs
      | [] => [[c]]

/-- JS `join('\n')`. -/
def joinNl : List (List Char) → List Char
  | [] => []
  | [g] => g
  | g :: gs => g ++ '\n' :: joinNl gs

/-- JS `trimEnd()`: remove trailing whitespace. -/
def trimEndChars (l : List Char) : List Char :=
  (l.reverse.dropWhile jsWs).reverse

/-- `TextBasedLogger.handleMetadata`: dump, split on `'\n'`, prefix every
line with two spaces, re-join, `trimEnd`, then strip magic tags
(replacement `'$3'`). -/
def handleMetadata (obj : List (String × YScalar)) : String :=
  ⟨replaceTags (fun _ _ body => body)
    (trimEndChars (joinNl ((splitOnNl (yamlDumpFlat obj)).map
      (fun v => ' ' :: ' ' :: v))))⟩

/-- `TextBasedLogger.logInternal` for a string message: the single string
handed to `writeOutput` (timestamp fixed by the `JsDate` argument). -/
def TextBasedLogger.logStringMsg (name : String) (now : JsDate) (level : LogLevel)
    (msg : String) (meta : Option (List (String × YScalar))) : String :=
  match meta with
  | some m => messagePrefix name level now ++ " " ++ handleMessage msg
      ++ "\n" ++ handleMetadata m
  | none => messagePrefix name level now ++ " " ++ handleMessage msg

/-! ## JS object-literal merge semantics (`{ msg, ...meta }`) -/

/-- Setting one property on a JS object (ordered field list): an existing
key is updated in place, a new key is appended. -/
def objInsert {V : Type} (o : List (String × V)) (k : String) (v : V) :
    List (String × V) :=
  if o.any (·.1 = k) then o.map (fun p => if p.1 = k then (k, v) else p)
  else o ++ [(k, v)]

/-- Assigning a sequence of fields onto an object, in order
(the semantics of both object spread and `Object.assign`). -/
def objAssign {V : Type} (o fields : List (String × V)) : List (String × V) :=
  fields.foldl (fun acc p => objInsert acc p.1 p.2) o

/-- The object literal `{ msg, ...meta }` built by
`TextBasedLogger.logInternal` (and by `LambdaLogger`) for a non-string
message: key `msg` first, then the metadata fields spread over it. -/
def spreadMsgMeta {V : Type} (msg : V) (meta : List (String × V)) :
    List (String × V) :=
  objAssign [("msg", msg)] meta

/-! ## A small JS regular-expression engine

The five regular expressions of `functionHeader.js` and the replacement
patterns of `prettify` use only literals, single-character classes,
greedy `*`/`+`/`?`, alternation and concatenation.  `reMatch` returns the
possible remainders of a match at the head of the input in JS backtracking
preference order (greedy quantifiers longest first, left alternative
first); the head of the list is the remainder of the match JS reports. -/

/-- Regular-expression syntax used by `functionHeader.js`. -/
inductive RE where
  | lit : List Char → RE
  | cls : (Char → Bool) → RE
  | seq : RE → RE → RE
  | alt : RE → RE → RE
  | opt : RE → RE
  | star : RE → RE
  | plus : RE → RE

/-- Greedy-star continuation: all remainders reachable by iterating the
body matcher `m`, longest first, then the zero-iteration remainder.  A JS
quantifier never repeats an empty iteration, hence the progress filter. -/
def starRuns (m : List Char → List (List Char)) : Nat → List Char → List (List Char)
  | 0, l => [l]
  | fuel + 1, l =>
    (((m l).filter (fun r => r.length < l.length)).flatMap (starRuns m fuel)) ++ [l]

/-- All remainders of matching `re` at the head of the input, in JS
backtracking preference order. -/
def reMatch : RE → List Char → List (List Char)
  | .lit s, l => match matchLit s l with | some r => [r] | none => []
  | .cls p, l => match l with
    | c :: r => if p c then [r] else []
    | [] => []
  | .seq a b, l => (reMatch a l).flatMap (reMatch b)
  | .alt a b, l => reMatch a l ++ reMatch b l
  | .opt r, l => reMatch r l ++ [l]
  | .star r, l => starRuns (reMatch r) l.length l
  | .plus r, l => (reMatch r l).flatMap (fun r2 => starRuns (reMatch r) r2.length r2)

/-- The prefix matched by an anchored (`^…`) regular expression, if any. -/
def anchoredMatch (re : RE) (l : List Char) : Option (List Char) :=
  match reMatch re l with
  | r :: _ => some (l.take (l.length - r.length))
  | [] => none

/-- `String.prototype.match` with an unanchored pattern: the first match,
scanning start positions left to right. -/
def searchMatch (re : RE) : List Char → Option (List Char)
  | [] => anchoredMatch re []
  | c :: rest =>
    match anchoredMatch re (c :: rest) with
    | some m => some m
    | none => searchMatch re rest

/-- Shorthand for a literal made from a string. -/
def reLit (s : String) : RE := .lit s.data

/-- `\s*` / `\s+` / `\w+` building blocks. -/
def reWsStar : RE := .star (.cls jsWs)

def reWsPlus : RE := .plus (.cls jsWs)

def reWordPlus : RE := .plus (.cls isWordChar)

/-- `[^)]*`. -/
def reNotParenStar : RE := .star (.cls (· ≠ ')'))

/-- `(?:\s*\{\s*})?` — the optional empty-body tail of the headers. -/
def reEmptyBraces : RE :=
  .opt (.seq reWsStar (.seq (reLit "\x7b") (.seq reWsStar (reLit "\x7d"))))

/-- `MATCH_FUNCTION_HEADER = /^(?:async\s*)?function\s*(?:\w+\s*)?\([^)]*\)(?:\s*\{\s*})?/`. -/
def MATCH_FUNCTION_HEADER : RE :=
  .seq (.opt (.seq (reLit "async") reWsStar))
    (.seq (reLit "function")
      (.seq reWsStar
        (.seq (.opt (.seq reWordPlus reWsStar))
          (.seq (reLit "(")
            (.seq reNotParenStar (.seq (reLit ")") reEmptyBraces))))))

/-- `MATCH_ARROW_FUNCTION_HEADER = /^\s*\(?[^)]*\)?\s*=>(?:\s*\{(?:\s*})?)?/`. -/
def MATCH_ARROW_FUNCTION_HEADER : RE :=
  .seq reWsStar
    (.seq (.opt (reLit "("))
      (.seq reNotParenStar
        (.seq (.opt (reLit ")"))
          (.seq reWsStar
            (.seq (reLit "=>")
              (.opt (.seq reWsStar
                (.seq (reLit "\x7b") (.opt (.seq reWsStar (reLit "\x7d")))))))))))

/-- `MATCH_METHOD_HEADER = /^(?:async|static\s*)*\w+\s*\w+\s*\([^)]*\)(?:\s*\{\s*})?/`. -/
def MATCH_METHOD_HEADER : RE :=
  .seq (.star (.alt (reLit "async") (.seq (reLit "static") reWsStar)))
    (.seq reWordPlus
      (.seq reWsStar
        (.seq reWordPlus
          (.seq reWsStar
            (.seq (reLit "(")
              (.seq reNotParenStar (.seq (reLit ")") reEmptyBraces)))))))

/-- `MATCH_CLASS_HEADER = /^class\s+\w+(?:\s*\{\s*})?/`. -/
def MATCH_CLASS_HEADER : RE :=
  .seq (reLit "class") (.seq reWsPlus (.seq reWordPlus reEmptyBraces))

/-- `MATCH_CONSTRUCTOR_HEADER = /constructor\s*\([^)]*\)(?:\s*\{\s*})?/`
(unanchored). -/
def MATCH_CONSTRUCTOR_HEADER : RE :=
  .seq (reLit "constructor")
    (.seq reWsStar
      (.seq (reLit "(")
        (.seq reNotParenStar (.seq (reLit ")") reEmptyBraces))))

/-! ## `prettify` (`functionHeader.js`) -/

/-- One global-replace pass: at each position, if the anchored pattern
matches, emit the constant replacement and continue after the match.
Fuelled structurally; each of `prettify`'s patterns consumes at least one
character, so `l.length` fuel always suffices. -/
def globalReplaceRE (re : RE) (rep : List Char) : Nat → List Char → List Char
  | 0, l => l
  | _ + 1, [] => []
  | fuel + 1, c :: rest =>
    match anchoredMatch re (c :: rest) with
    | some m =>
      if m.length = 0 then rep ++ c :: globalReplaceRE re rep fuel rest
      else rep ++ globalReplaceRE re rep fuel ((c :: rest).drop m.length)
    | none => c :: globalReplaceRE re rep fuel rest

/-- Run a list of global replaces in order. -/
def runReplaces (steps : List (RE × List Char)) (l : List Char) : List Char :=
  steps.foldl (fun acc s => globalReplaceRE s.1 s.2 acc.length acc) l

/-- JS `trim()`. -/
def trimChars (l : List Char) : List Char :=
  trimEndChars (l.dropWhile jsWs)

/-- `prettify` from `functionHeader.js`: the seven chained `replace`
calls followed by `trim()`. -/
def prettify (source : List Char) : List Char :=
  trimChars (runReplaces
    [ (reWsPlus, [' ']),
      (.seq (reLit "\x7b") (.seq reWsPlus (reLit "\x7d")), ['{', '}']),
      (.seq (reLit "(") (.seq reWsPlus (reLit ")")), ['(', ')']),
      (.seq reWsPlus (reLit "\x7b"), [' ', '{']),
      (.seq reWsPlus (reLit "("), [' ', '(']),
      (.seq reWsPlus (reLit ")"), [')']),
      (.seq reWsStar (.seq (reLit ",") reWsStar), [',', ' ']) ]
    source)

/-! ## `functionHeader` (`functionHeader.js`)

A function value is represented by the string
`Function.prototype.toString` returns for it. -/

/-- `matched.includes('{')` etc. -/
def containsChar (l : List Char) (c : Char) : Bool :=
  l.any (· = c)

/-- `functionHeader` from `functionHeader.js`, on the function's source
text. -/
def functionHeader (source : String) : String :=
  let l := source.data
  match
    (match anchoredMatch MATCH_FUNCTION_HEADER l with
     | some m => some m
     | none => anchoredMatch MATCH_METHOD_HEADER l) with
  | some matched =>
    if containsChar matched '{' then ⟨prettify matched⟩
    else ⟨prettify (matched ++ " \x7b ... \x7d".data)⟩
  | none =>
    match anchoredMatch MATCH_ARROW_FUNCTION_HEADER l with
    | some matched =>
      ⟨prettify
        (if containsChar matched '{' then
          if containsChar matched '}' then matched else matched ++ " ... \x7d".data
         else matched ++ " ...".data)⟩
    | none =>
      match anchoredMatch MATCH_CLASS_HEADER l with
      | some matched =>
        match searchMatch MATCH_CONSTRUCTOR_HEADER l with
        | some subMatched =>
          ⟨prettify
            (if containsChar subMatched '{' then
              matched ++ " \x7b ".data ++ subMatched ++ " \x7d".data
             else matched ++ " \x7b ".data ++ subMatched ++ " \x7b ... \x7d \x7d".data)⟩
        | none =>
          if containsChar matched '{' then ⟨prettify matched⟩
          else ⟨prettify (matched ++ " \x7b ... \x7d".data)⟩
      | none => ⟨prettify "function(...) \x7b ... \x7d".data⟩

/-- The spec's claimed pattern priority order, stated as a variant of
`functionHeader` that tries the arrow pattern before the bound-method
pattern (and the constructor pattern before the class pattern), keeping
each pattern's result shaping.  Used only to compare against the code's
actual order. -/
def functionHeaderSpecOrder (source : String) : String :=
  let l := source.data
  match anchoredMatch MATCH_FUNCTION_HEADER l with
  | some matched =>
    if containsChar matched '{' then ⟨prettify matched⟩
    else ⟨prettify (matched ++ " \x7b ... \x7d".data)⟩
  | none =>
    match anchoredMatch MATCH_ARROW_FUNCTION_HEADER l with
    | some matched =>
      ⟨prettify
        (if containsChar matched '{' then
          if containsChar matched '}' then matched else matched ++ " ... \x7d".data
         else matched ++ " ...".data)⟩
    | none =>
      match anchoredMatch MATCH_METHOD_HEADER l with
      | some matched =>
        if containsChar matched '{' then ⟨prettify matched⟩
        else ⟨prettify (matched ++ " \x7b ... \x7d".data)⟩
      | none =>
        match anchoredMatch MATCH_CLASS_HEADER l with
        | some matched =>
          match searchMatch MATCH_CONSTRUCTOR_HEADER l with
          | some subMatched =>
            ⟨prettify
              (if containsChar subMatched '{' then
                matched ++ " \x7b ".data ++ subMatched ++ " \x7d".data
               else matched ++ " \x7b ".data ++ subMatched ++ " \x7b ... \x7d \x7d".data)⟩
          | none =>
            if containsChar matched '{' then ⟨prettify matched⟩
            else ⟨prettify (matched ++ " \x7b ... \x7d".data)⟩
        | none => ⟨prettify "function(...) \x7b ... \x7d".data⟩

/-! ## The metadata replacer (`yamlDumpOptions.replacer`)

A JS value is modelled by what the replacer inspects: an `Error` instance
carries its own-property table (each property with its enumerability
flag — per ECMA-262, `new Error(m)` has own non-enumerable `message`, V8
adds own non-enumerable `stack`, and `name` lives on `Error.prototype`,
i.e. is not an own property); a function carries its
`Function.prototype.toString` source. -/

/-- One own property of an `Error` instance. -/
structure ErrProp where
  key : String
  val : String
  enumerable : Bool
deriving DecidableEq, Repr

/-- The JS values the replacer distinguishes. -/
inductive JsVal where
  | str : String → JsVal
  | num : Int → JsVal
  | bigintv : Int → JsVal
  | boolv : Bool → JsVal
  | fnv : String → JsVal
  | errv : List ErrProp → JsVal
deriving DecidableEq, Repr

/-- The replacer's result: the value unchanged, a replacement string, or
the plain mapping built from an `Error`. -/
inductive RVal where
  | val : JsVal → RVal
  | strv : String → RVal
  | mapping : List (String × String) → RVal
deriving DecidableEq, Repr

/-- The `replacer` of `yamlDumpOptions`: an `Error` is expanded via
`Object.getOwnPropertyNames` (all own properties, enumerable or not) into
a plain mapping; a function becomes `` `<hl js>${functionHeader(value)}</hl>` ``;
a bigint becomes `value.toString()`; anything else passes through. -/
def yamlReplacer : JsVal → RVal
  | .errv props => .mapping (props.map fun p => (p.key, p.val))
  | .fnv src => .strv ("<hl js>" ++ functionHeader src ++ "</hl>")
  | .bigintv n => .strv (toString n)
  | v => .val v

/-- The transform as the claim words it: an Error-like value maps to the
plain mapping of its own *enumerable* properties.  Stated only to compare
with `yamlReplacer`. -/
def yamlReplacerSpecWords : JsVal → RVal
  | .errv props => .mapping ((props.filter (·.enumerable)).map fun p => (p.key, p.val))
  | .fnv src => .strv ("<hl js>" ++ functionHeader src ++ "</hl>")
  | .bigintv n => .strv (toString n)
  | v => .val v

/-- A standard `new Error("boom")` as V8 lays it out: own non-enumerable
`stack` and `message`; `name` is inherited, hence absent from the table. -/
def standardError : JsVal :=
  .errv [⟨"stack", "Error: boom\n    at main", false⟩, ⟨"message", "boom", false⟩]

/-- The field list of a mapping result (empty for non-mappings). -/
def RVal.mappingFields : RVal → List (String × String)
  | .mapping m => m
  | _ => []

/-- The keys of a mapping result. -/
def RVal.mappingKeys (v : RVal) : List String :=
  v.mappingFields.map Prod.fst

/-- The remaining fields of `yamlDumpOptions`. -/
structure DumpOptions where
  lineWidth : Nat
  quotingType : Char
  skipInvalid : Bool
deriving DecidableEq, Repr

/-- `yamlDumpOptions` from `logger.text`: `lineWidth: 120`,
`quotingType: '"'`, `skipInvalid: true`. -/
def yamlDumpOptions : DumpOptions := ⟨120, '"', true⟩

/-! ## The sink multiplexer (`logger.delegate.ts`)

`DelegateLogger.logInternal` runs `logger.log(level, msg, meta)` for each
delegate in a plain `for` loop.  A delegate is modelled by its `log`
behaviour on the call's triple: normal return or a thrown error.  The run
returns the trace of triples received by the delegates that were actually
invoked (in invocation order) and the error that escaped, if any: an
uncaught JS exception aborts the loop. -/

/-- `DelegateLogger.logInternal` over delegate behaviours. -/
def DelegateLogger.logInternal {τ E : Type} (loggers : List (τ → Except E Unit))
    (t : τ) : List τ × Option E :=
  match loggers with
  | [] => ([], none)
  | d :: rest =>
    match d t with
    | .ok _ =>
      let r := DelegateLogger.logInternal rest t
      (t :: r.1, r.2)
    | .error e => ([t], some e)

/-! ## The serverless fallback (`LambdaLogger`, `logger.console.ts`) -/

/-- The values appearing in the fallback's flat log object. -/
inductive JLeaf where
  | str : String → JLeaf
  | num : Int → JLeaf
  | undef : JLeaf
  | tags : List String → JLeaf
deriving DecidableEq, Repr

/-- `JSON.stringify` escaping for one character (the escapes relevant to
line structure; `"`, `\`, newline, carriage return and tab). -/
def escapeJsonChar (c : Char) : List Char :=
  if c = '"' then ['\\', '"']
  else if c = '\\' then ['\\', '\\']
  else if c = '\n' then ['\\', 'n']
  else if c = '\r' then ['\\', 'r']
  else if c = '\t' then ['\\', 't']
  else [c]

/-- `JSON.stringify` escaping of a string body. -/
def escapeJson (s : String) : List Char :=
  s.data.flatMap escapeJsonChar

/-- A JSON string literal. -/
def jsonQuote (s : String) : List Char :=
  '"' :: (escapeJson s ++ ['"'])

/-- Comma-join. -/
def joinComma : List (List Char) → List Char
  | [] => []
  | [g] => g
  | g :: gs => g ++ ',' :: joinComma gs

/-- Serialization of one field value. -/
def jsonLeaf : JLeaf → List Char
  | .str s => jsonQuote s
  | .num n => (toString n).data
  | .undef => []
  | .tags l => '[' :: (joinComma (l.map jsonQuote) ++ [']'])

/-- `JSON.stringify` on the flat log object; fields holding `undefined`
are skipped. -/
def jsonStringifyObj (o : List (String × JLeaf)) : String :=
  ⟨'{' :: (joinComma ((o.filter (fun p => p.2 != JLeaf.undef)).map
      fun p => jsonQuote p.1 ++ ':' :: jsonLeaf p.2) ++ ['}'])⟩

/-- The `logObj` built by `LambdaLogger.logInternal` when `lambda-log` is
absent: `{_logLevel, _tags: [name], msg}` then `Object.assign` of
`{ msg }` and `meta` for a non-string message, or of `meta` alone for a
string message. -/
def LambdaLogger.fallbackLogObj (level : LogLevel) (name : String) (msg : JLeaf)
    (meta : Option (List (String × JLeaf))) : List (String × JLeaf) :=
  let logObj : List (String × JLeaf) :=
    [("_logLevel", .str (levelName level)), ("_tags", .tags [name]),
     ("msg", match msg with | .str s => .str s | _ => .undef)]
  match msg with
  | .str _ =>
    (match meta with
     | some m => objAssign logObj m
     | none => logObj)
  | _ => objAssign logObj (("msg", msg) :: meta.getD [])

/-- The standard-output lines emitted by one fallback `logInternal` call:
exactly one `console.log(JSON.stringify(logObj))`. -/
def LambdaLogger.fallbackEmit (level : LogLevel) (name : String) (msg : JLeaf)
    (meta : Option (List (String × JLeaf))) : List String :=
  [jsonStringifyObj (LambdaLogger.fallbackLogObj level name msg meta)]

/-- The constructor's missing-backend warning text. -/
def lambdaWarnText : String :=
  "[log4js] lambda-log is not installed, falling back to JSON console output. Install lambda-log for full functionality."

/-- The `LambdaLogger` constructor: warns iff the backend is missing and
the process-wide `warnedAboutMissingLambdaLog` flag is still unset, then
sets the flag.  Returns the new flag and the warnings emitted. -/
def LambdaLogger.construct (backendMissing warned : Bool) : Bool × List String :=
  if backendMissing && !warned then (true, [lambdaWarnText]) else (warned, [])

/-- Constructing `n` `LambdaLogger`s in sequence, threading the static
flag; returns the final flag and all warnings emitted. -/
def LambdaLogger.constructMany (backendMissing : Bool) : Nat → Bool → Bool × List String
  | 0, warned => (warned, [])
  | n + 1, warned =>
    let first := LambdaLogger.construct backendMissing warned
    let rest := LambdaLogger.constructMany backendMissing n first.1
    (rest.1, first.2 ++ rest.2)

/-! # Theorems -/

/-! ## Shared helper lemmas -/

/-- If no position of the input matches the magic-tag pattern, the
substitution pass returns the input unchanged, for any fuel and any
resolver. -/
theorem replaceTagsFuel_of_no_tag (f : List Char → List Char → List Char → List Char) :
    ∀ (fuel : Nat) (l : List Char), hasTag l = false → replaceTagsFuel f fuel l = l := by
  intro fuel
  induction fuel with
  | zero => intro l _; rfl
  | succ n ih =>
    intro l h
    cases l with
    | nil => rfl
    | cons c rest =>
      rw [hasTag] at h
      rcases Bool.or_eq_false_iff.mp h with ⟨h1, h2⟩
      have hnone : matchTagAt (c :: rest) = none :=
        Option.not_isSome_iff_eq_none.mp (by simp [h1])
      rw [replaceTagsFuel, hnone, ih rest h2]

/-- Assigning fields whose keys are fresh for the object and pairwise
distinct appends them in order. -/
theorem objAssign_append {V : Type} :
    ∀ (fields acc : List (String × V)),
      (∀ p ∈ fields, ∀ q ∈ acc, q.1 ≠ p.1) →
      fields.Pairwise (fun p q => p.1 ≠ q.1) →
      objAssign acc fields = acc ++ fields := by
  intro fields
  induction fields with
  | nil => intro acc _ _; simp [objAssign]
  | cons p ps ih =>
    intro acc hfresh hpw
    have hnot : acc.any (·.1 = p.1) = false := by
      rw [List.any_eq_false]
      intro q hq
      simpa using hfresh p (List.mem_cons_self p ps) q hq
    have step : objAssign acc (p :: ps) = objAssign (acc ++ [p]) ps := by
      simp only [objAssign, List.foldl_cons, objInsert, hnot]
      rfl
    rw [step, ih (acc ++ [p]) ?_ (List.Pairwise.of_cons hpw)]
    · simp
    · intro r hr q hq
      rcases List.mem_append.mp hq with hq | hq
      · exact hfresh r (List.mem_cons_of_mem p hr) q hq
      · rcases List.mem_singleton.mp hq with rfl
        exact (List.pairwise_cons.mp hpw).1 r hr

/-! ## C1 — the level filter -/

/-- C1: for every message level `L` and threshold `T`, `shouldLog L T` is
true iff `priority(L) ≤ priority(T)` under the fixed assignment error=0,
warn=1, info=2, debug=3; in particular threshold `warn` admits error and
warn and rejects info and debug. -/
theorem shouldLog_iff_priority_le :
    (∀ L T : LogLevel,
        shouldLog L T = true ↔ LOG_LEVEL_PRIORITY L ≤ LOG_LEVEL_PRIORITY T)
    ∧ (LOG_LEVEL_PRIORITY .error = 0 ∧ LOG_LEVEL_PRIORITY .warn = 1
        ∧ LOG_LEVEL_PRIORITY .info = 2 ∧ LOG_LEVEL_PRIORITY .debug = 3)
    ∧ (shouldLog .error .warn = true ∧ shouldLog .warn .warn = true
        ∧ shouldLog .info .warn = false ∧ shouldLog .debug .warn = false) := by
  refine ⟨fun L T => ?_, by decide, by decide⟩
  cases L <;> cases T <;> simp [shouldLog, LOG_LEVEL_PRIORITY]

/-! ## C2 — the strip substitution (code bug in `logger.delegate.ts`) -/

/-- C2 (code bug): on the well-formed tag `"<hl sql>SELECT 1</hl>"` the
`TextBasedLogger` strip substitution (replacement `'$3'`) yields the body
`"SELECT 1"` as the claim states, but `ConsoleLogger.handleMessage` as
duplicated in `logger.delegate.ts` uses replacement `'$2'` and yields the
tag *parameter* `"sql"`, contradicting the claim and that method's own
documentation ("stripping magic tags"). -/
theorem strip_substitution_failing_input :
    handleMessage "<hl sql>SELECT 1</hl>" = "SELECT 1"
    ∧ delegateConsoleHandleMessage "<hl sql>SELECT 1</hl>" = "sql"
    ∧ delegateConsoleHandleMessage "<hl sql>SELECT 1</hl>" ≠ "SELECT 1" := by
  decide

/-! ## C3 — malformed tags pass through -/

/-- C3: a malformed magic tag is never matched: on any input without a
well-formed tag the substitution returns the input unchanged for *every*
resolver (strip or styled), and being a total function it raises nothing;
in particular the mismatched-closer example
`"<hl sql>SELECT 1</foo>"` and the missing-closer example
`"<hl sql>SELECT 1"` pass through completely unmodified. -/
theorem malformed_tags_pass_through :
    (∀ (f : List Char → List Char → List Char → List Char) (l : List Char),
        hasTag l = false → replaceTags f l = l)
    ∧ (∀ f, replaceTags f "<hl sql>SELECT 1</foo>".data
        = "<hl sql>SELECT 1</foo>".data)
    ∧ (∀ f, replaceTags f "<hl sql>SELECT 1".data = "<hl sql>SELECT 1".data) := by
  refine ⟨fun f l h => replaceTagsFuel_of_no_tag f _ l h,
    fun f => replaceTagsFuel_of_no_tag f _ _ (by decide),
    fun f => replaceTagsFuel_of_no_tag f _ _ (by decide)⟩

/-- Witness for C3 at a concrete resolver and input. -/
theorem malformed_tags_pass_through_witness :
    hasTag "</x> <hl a".data = false
    ∧ replaceTags (fun _ _ body => body) "</x> <hl a".data = "</x> <hl a".data :=
  ⟨by decide,
    malformed_tags_pass_through.1 (fun _ _ body => body) "</x> <hl a".data (by decide)⟩

/-! ## C4 — the level gate is a complete no-op below threshold -/

/-- C4: when `shouldLog level minLevel` is false, `Logger.log` produces no
effect at all and its result does not depend on the renderer, the message
or the metadata (so no rendering, serialization or output-function work
can occur — a side-effecting metadata accessor is never invoked); when it
is true, the call is handed to `logInternal` exactly once with the
identical level, message and metadata. -/
theorem level_gate_noop_below_threshold :
    (∀ (α β ρ : Type) (minLevel level : LogLevel)
        (f g : LogLevel → α → Option β → List ρ) (msg msg' : α) (meta meta' : Option β),
        shouldLog level minLevel = false →
          Logger.log minLevel f level msg meta = []
          ∧ Logger.log minLevel f level msg meta = Logger.log minLevel g level msg' meta')
    ∧ (∀ (α β ρ : Type) (minLevel level : LogLevel)
        (f : LogLevel → α → Option β → List ρ) (msg : α) (meta : Option β),
        shouldLog level minLevel = true →
          Logger.log minLevel f level msg meta = f level msg meta)
    ∧ (∀ (α β : Type) (minLevel level : LogLevel) (msg : α) (meta : Option β),
        shouldLog level minLevel = true →
          Logger.log minLevel (fun lv m mt => [(lv, m, mt)]) level msg meta
            = [(level, msg, meta)]) := by
  refine ⟨fun α β ρ minLevel level f g msg msg' meta meta' h => ?_,
    fun α β ρ minLevel level f msg meta h => ?_,
    fun α β minLevel level msg meta h => ?_⟩
  · constructor <;> simp [Logger.log, h]
  · simp [Logger.log, h]
  · simp [Logger.log, h]

/-- Witness for C4: with threshold `error`, a `debug` call produces
nothing; an `error` call is delegated exactly once with its triple. -/
theorem level_gate_noop_below_threshold_witness :
    Logger.log (ρ := Nat) .error (fun _ (_ : Nat) (_ : Option Nat) => [99]) .debug 5 (some 6) = []
    ∧ Logger.log .error (fun lv (m : Nat) (mt : Option Nat) => [(lv, m, mt)]) .error 5 (some 6)
        = [(.error, 5, some 6)] :=
  ⟨(level_gate_noop_below_threshold.1 Nat Nat Nat .error .debug
      (fun _ _ _ => [99]) (fun _ _ _ => [99]) 5 5 (some 6) (some 6) (by decide)).1,
    level_gate_noop_below_threshold.2.2 Nat Nat .error .error 5 (some 6) (by decide)⟩

/-! ## C5 — the text-strategy header and layout -/

/-- C5: a text-strategy render of a string message is the header
`"[HH:MM:SS] [name/LEVEL]"` (each time field `padStart(2,'0')`-padded to
two digits, level upper-cased), a space, the tag-resolved message, and —
when metadata is present — a newline and the metadata block indented by
two spaces; on logger "App" at 07:08:09, `info("Starting", {usage: 95})`
renders exactly as the spec's example. -/
theorem text_render_header_and_example :
    TextBasedLogger.logStringMsg "App" ⟨7, 8, 9⟩ .info "Starting"
        (some [("usage", .num 95)])
      = "[07:08:09] [App/INFO] Starting\n  usage: 95"
    ∧ (∀ (name : String) (now : JsDate) (level : LogLevel) (msg : String)
          (m : List (String × YScalar)),
        TextBasedLogger.logStringMsg name now level msg (some m)
          = messagePrefix name level now ++ " " ++ handleMessage msg
              ++ "\n" ++ handleMetadata m)
    ∧ (∀ (name : String) (now : JsDate) (level : LogLevel) (msg : String),
        TextBasedLogger.logStringMsg name now level msg none
          = messagePrefix name level now ++ " " ++ handleMessage msg)
    ∧ (∀ h : Nat, h < 24 → (padStart2 (toString h)).length = 2)
    ∧ (∀ m : Nat, m < 60 → (padStart2 (toString m)).length = 2) := by
  refine ⟨by decide, fun _ _ _ _ _ => rfl, fun _ _ _ _ => rfl, ?_, ?_⟩
  · intro h hh; interval_cases h <;> decide
  · intro m hm; interval_cases m <;> decide

/-- Witness for C5's padding clauses at concrete hour and second values. -/
theorem text_render_header_and_example_witness :
    (padStart2 (toString 7)).length = 2 ∧ (padStart2 (toString 59)).length = 2 :=
  ⟨text_render_header_and_example.2.2.2.1 7 (by decide),
    text_render_header_and_example.2.2.2.2 59 (by decide)⟩

/-! ## C6 — the per-scalar replacer (corrected) -/

/-- C6 counterexample: for a standard `new Error("boom")` — own
non-enumerable `message` and `stack`, `name` only inherited — the code's
transform (via `Object.getOwnPropertyNames`) keeps `message` and `stack`
even though they are not enumerable, and produces no `name` field; the
claim's "own enumerable properties" transform would instead produce an
empty mapping, so the claim fails on this value in both respects. -/
theorem metadata_replacer_counterexample :
    yamlReplacer standardError
      = .mapping [("stack", "Error: boom\n    at main"), ("message", "boom")]
    ∧ "name" ∉ (yamlReplacer standardError).mappingKeys
    ∧ yamlReplacerSpecWords standardError = .mapping []
    ∧ yamlReplacer standardError ≠ yamlReplacerSpecWords standardError := by
  decide

/-- C6 (amended): the replacer maps every Error value to the plain mapping
of *all of its own properties, enumerable or not* — so message, stack and
custom own fields appear while the inherited `name` does not; every
function value to `"<hl js>" ++ signature ++ "</hl>"`; every big-integer
value to its decimal string with no suffix; every other value passes
through unchanged, and the encoder options are line width 120,
double-quoted strings, and silent skipping of unrepresentable values. -/
theorem metadata_replacer_amended :
    (∀ props, yamlReplacer (.errv props)
        = .mapping (props.map fun p => (p.key, p.val)))
    ∧ (∀ (props : List ErrProp) (p : ErrProp), p ∈ props →
        (p.key, p.val) ∈ (yamlReplacer (.errv props)).mappingFields)
    ∧ (∀ src, yamlReplacer (.fnv src)
        = .strv ("<hl js>" ++ functionHeader src ++ "</hl>"))
    ∧ (∀ n : Int, yamlReplacer (.bigintv n) = .strv (toString n))
    ∧ (∀ s, yamlReplacer (.str s) = .val (.str s))
    ∧ (∀ n, yamlReplacer (.num n) = .val (.num n))
    ∧ (∀ b, yamlReplacer (.boolv b) = .val (.boolv b))
    ∧ yamlDumpOptions.lineWidth = 120 ∧ yamlDumpOptions.quotingType = '"'
    ∧ yamlDumpOptions.skipInvalid = true := by
  refine ⟨fun _ => rfl, fun props p hp => ?_, fun _ => rfl, fun _ => rfl,
    fun _ => rfl, fun _ => rfl, fun _ => rfl, rfl, rfl, rfl⟩
  simpa [yamlReplacer, RVal.mappingFields] using
    List.mem_map_of_mem (fun q => (q.key, q.val)) hp

/-- Witness for C6's membership clause: the non-enumerable own `stack`
property of the standard error appears in the replacer's mapping. -/
theorem metadata_replacer_amended_witness :
    (("stack" : String), ("Error: boom\n    at main" : String))
      ∈ (yamlReplacer (.errv [⟨"stack", "Error: boom\n    at main", false⟩,
          ⟨"message", "boom", false⟩])).mappingFields :=
  metadata_replacer_amended.2.1 _ ⟨"stack", "Error: boom\n    at main", false⟩
    (by decide)

/-! ## C7 — the function-signature extractor (corrected) -/

/-- C7 counterexample: on the async arrow source `"async (a) => b"`
(`Function.prototype.toString` of `async (a) => b`) the plain-function
pattern fails, the bound-method pattern matches `"async (a)"`, and the
arrow pattern matches `"async (a) =>"`.  The code tries the method pattern
*before* the arrow pattern and returns the method-shaped header, while the
claim's priority order (arrow-style before bound methods) would return the
arrow-shaped one. -/
theorem function_header_order_counterexample :
    functionHeader "async (a) => b" = "async (a) \x7b ... \x7d"
    ∧ functionHeaderSpecOrder "async (a) => b" = "async (a) => ..."
    ∧ functionHeader "async (a) => b" ≠ functionHeaderSpecOrder "async (a) => b"
    ∧ (anchoredMatch MATCH_FUNCTION_HEADER "async (a) => b".data).isNone = true
    ∧ anchoredMatch MATCH_METHOD_HEADER "async (a) => b".data
        = some "async (a)".data
    ∧ anchoredMatch MATCH_ARROW_FUNCTION_HEADER "async (a) => b".data
        = some "async (a) =>".data := by
  refine ⟨by decide, by decide, by decide, by decide, by decide, by decide⟩

/-- C7 (amended): the extractor recognizes plain/async functions and bound
methods first (function pattern, then method pattern), then arrow-style
functions, then class declarations — the constructor pattern is applied
only inside a matched class — and falls back to the generic placeholder
`"function(...) { ... }"` when none match; extracted signatures are
whitespace-normalized: runs of whitespace collapse to one space, empty
parameter lists and blocks collapse to `()` and `{}`, and comma spacing
becomes `", "`. -/
theorem function_header_amended :
    functionHeader "async function test(a,  b) \x7b return a; \x7d"
      = "async function test(a, b) \x7b ... \x7d"
    ∧ functionHeader "foo(a, b) \x7b return 1; \x7d" = "foo(a, b) \x7b ... \x7d"
    ∧ functionHeader "(x) => x * 2" = "(x) => ..."
    ∧ functionHeader "async (a) => b" = "async (a) \x7b ... \x7d"
    ∧ functionHeader "class A \x7b constructor(b) \x7b this.b = b; \x7d \x7d"
      = "class A \x7b constructor(b) \x7b ... \x7d \x7d"
    ∧ (⟨prettify "function g( ) \x7b  \x7d".data⟩ : String) = "function g() \x7b\x7d"
    ∧ (⟨prettify "f(a ,b)".data⟩ : String) = "f(a, b)"
    ∧ (∀ src : String,
        anchoredMatch MATCH_FUNCTION_HEADER src.data = none →
        anchoredMatch MATCH_METHOD_HEADER src.data = none →
        anchoredMatch MATCH_ARROW_FUNCTION_HEADER src.data = none →
        anchoredMatch MATCH_CLASS_HEADER src.data = none →
        functionHeader src = "function(...) \x7b ... \x7d") := by
  refine ⟨by decide, by decide, by decide, by decide, by decide, by decide,
    by decide, fun src h1 h2 h3 h4 => ?_⟩
  rw [functionHeader, h1, h2, h3, h4]
  rfl

/-- Witness for C7's fallback clause at a concrete unmatched source. -/
theorem function_header_amended_witness :
    functionHeader "blah" = "function(...) \x7b ... \x7d" :=
  function_header_amended.2.2.2.2.2.2.2 "blah" (by decide) (by decide)
    (by decide) (by decide)

/-! ## C8 — the sink multiplexer (corrected) -/

/-- C8 counterexample: a two-delegate multiplexer whose first delegate
throws invokes only that first delegate — the uncaught error escapes the
plain `for` loop of `DelegateLogger.logInternal`, so the second delegate
never receives the call, refuting the claimed failure isolation. -/
theorem delegate_fanout_counterexample :
    DelegateLogger.logInternal
        [fun _ => Except.error 0, fun (_ : Nat) => Except.ok ()] 7
      = ([7], some 0)
    ∧ ([7] : List Nat).length ≠ 2 := by
  exact ⟨rfl, by decide⟩

/-- C8 (amended): delegates are invoked in list order, synchronously, each
at most once and with the identical triple; when every delegate returns
normally each of the `N` delegates is invoked exactly once; but a thrown
error in one delegate's `log` aborts the loop, so the delegates after it
do not receive the call. -/
theorem delegate_fanout_amended :
    (∀ (τ E : Type) (ds : List (τ → Except E Unit)) (t : τ),
        (∀ d ∈ ds, d t = .ok ()) →
        DelegateLogger.logInternal ds t = (List.replicate ds.length t, none))
    ∧ (∀ (τ E : Type) (ds₁ : List (τ → Except E Unit)) (d : τ → Except E Unit)
          (ds₂ : List (τ → Except E Unit)) (t : τ) (e : E),
        (∀ d' ∈ ds₁, d' t = .ok ()) → d t = .error e →
        DelegateLogger.logInternal (ds₁ ++ d :: ds₂) t
          = (List.replicate (ds₁.length + 1) t, some e)) := by
  constructor
  · intro τ E ds t h
    induction ds with
    | nil => rfl
    | cons d rest ih =>
      rw [DelegateLogger.logInternal, h d (List.mem_cons_self d rest)]
      rw [ih fun d' hd' => h d' (List.mem_cons_of_mem d hd')]
      rfl
  · intro τ E ds₁ d ds₂ t e hok herr
    induction ds₁ with
    | nil => simp [DelegateLogger.logInternal, herr]
    | cons d₁ rest ih =>
      rw [List.cons_append, DelegateLogger.logInternal,
        hok d₁ (List.mem_cons_self d₁ rest)]
      rw [ih fun d' hd' => hok d' (List.mem_cons_of_mem d₁ hd')]
      rfl

/-- Witness for C8 (amended) at concrete delegate lists: two succeeding
delegates are each invoked once; a failing delegate after one success
stops after two invocations. -/
theorem delegate_fanout_amended_witness :
    DelegateLogger.logInternal [fun _ => Except.ok (), fun (_ : Nat) => Except.ok ()] 7
      = ([7, 7], (none : Option Nat))
    ∧ DelegateLogger.logInternal
        ([fun _ => Except.ok ()] ++ (fun (_ : Nat) => Except.error 3) :: []) 7
      = ([7, 7], some 3) :=
  ⟨delegate_fanout_amended.1 Nat Nat _ 7 (by intro d hd; fin_cases hd <;> rfl),
    delegate_fanout_amended.2 Nat Nat [fun _ => Except.ok ()] _ [] 7 3
      (by intro d hd; fin_cases hd; rfl) rfl⟩

/-! ## C9 — the serverless fallback (corrected)

Helper lemmas: no character of a serialized fallback object is a newline,
so the emitted record is a single line. -/

/-- `Nat.digitChar` is never a newline. -/
theorem digitChar_ne_nl (m : Nat) : Nat.digitChar m ≠ '\n' := by
  by_cases h : m < 16
  · interval_cases m <;> decide
  · have hstar : Nat.digitChar m = '*' := by
      unfold Nat.digitChar
      repeat rw [if_neg (by omega)]
    rw [hstar]
    decide

/-- Decimal digit accumulation introduces no newline. -/
theorem toDigitsCore_ne_nl :
    ∀ (fuel n : Nat) (acc : List Char), (∀ c ∈ acc, c ≠ '\n') →
      ∀ c ∈ Nat.toDigitsCore 10 fuel n acc, c ≠ '\n' := by
  intro fuel
  induction fuel with
  | zero => intro n acc h c hc; exact h c hc
  | succ f ih =>
    intro n acc h c hc
    simp only [Nat.toDigitsCore] at hc
    split at hc
    · rcases List.mem_cons.mp hc with rfl | hc
      · exact digitChar_ne_nl _
      · exact h c hc
    · refine ih _ _ ?_ c hc
      intro c' hc'
      rcases List.mem_cons.mp hc' with rfl | hc'
      · exact digitChar_ne_nl _
      · exact h c' hc'

/-- `Nat.repr` contains no newline. -/
theorem natRepr_ne_nl (n : Nat) : '\n' ∉ (Nat.repr n).data := by
  intro h
  exact toDigitsCore_ne_nl _ _ [] (by simp) '\n' h rfl

/-- The decimal rendering of an integer contains no newline. -/
theorem intToString_ne_nl (n : Int) : '\n' ∉ (toString n).data := by
  cases n with
  | ofNat m => exact natRepr_ne_nl m
  | negSucc m =>
    intro h
    rcases List.mem_append.mp h with h | h
    · simp at h
    · exact natRepr_ne_nl _ h

/-- JSON escaping of one character yields no newline. -/
theorem escapeJsonChar_ne_nl (c c' : Char) (h : c' ∈ escapeJsonChar c) : c' ≠ '\n' := by
  unfold escapeJsonChar at h
  split_ifs at h with h1 h2 h3 h4 h5 <;>
    [skip; skip; skip; skip; skip;
      exact List.mem_singleton.mp h ▸ h3] <;>
    simp at h <;> rcases h with rfl | rfl <;> decide

/-- JSON escaping of a string yields no newline. -/
theorem escapeJson_ne_nl (s : String) (c : Char) (h : c ∈ escapeJson s) : c ≠ '\n' := by
  rcases List.mem_flatMap.mp h with ⟨c0, _, hc⟩
  exact escapeJsonChar_ne_nl c0 c hc

/-- A JSON string literal contains no newline. -/
theorem jsonQuote_ne_nl (s : String) (c : Char) (h : c ∈ jsonQuote s) : c ≠ '\n' := by
  rcases List.mem_cons.mp h with rfl | h
  · decide
  · rcases List.mem_append.mp h with h | h
    · exact escapeJson_ne_nl s c h
    · rcases List.mem_singleton.mp h with rfl
      decide

/-- Every character of a comma-join is a comma or from one of the parts. -/
theorem joinComma_mem :
    ∀ (gs : List (List Char)) (c : Char), c ∈ joinComma gs → c = ',' ∨ ∃ g ∈ gs, c ∈ g := by
  intro gs
  induction gs with
  | nil => intro c hc; simp [joinComma] at hc
  | cons g rest ih =>
    intro c hc
    cases rest with
    | nil => exact Or.inr ⟨g, List.mem_singleton.mpr rfl, hc⟩
    | cons r rs =>
      have hc2 : c ∈ g ++ ',' :: joinComma (r :: rs) := hc
      rcases List.mem_append.mp hc2 with h | h
      · exact Or.inr ⟨g, List.mem_cons_self g _, h⟩
      · rcases List.mem_cons.mp h with rfl | h
        · exact Or.inl rfl
        · rcases ih c h with h | ⟨g', hg', hcg'⟩
          · exact Or.inl h
          · exact Or.inr ⟨g', List.mem_cons_of_mem g hg', hcg'⟩

/-- A serialized field value contains no newline. -/
theorem jsonLeaf_ne_nl (v : JLeaf) (c : Char) (h : c ∈ jsonLeaf v) : c ≠ '\n' := by
  cases v with
  | str s => exact jsonQuote_ne_nl s c h
  | num n => exact fun hq => intToString_ne_nl n (hq ▸ h)
  | undef => simp [jsonLeaf] at h
  | tags l =>
    rcases List.mem_cons.mp h with rfl | h
    · decide
    · rcases List.mem_append.mp h with h | h
      · rcases joinComma_mem _ c h with rfl | ⟨g, hg, hcg⟩
        · decide
        · rcases List.mem_map.mp hg with ⟨s, _, rfl⟩
          exact jsonQuote_ne_nl s c hcg
      · rcases List.mem_singleton.mp h with rfl
        decide

/-- A serialized log object is a single line. -/
theorem jsonStringifyObj_ne_nl (o : List (String × JLeaf)) :
    '\n' ∉ (jsonStringifyObj o).data := by
  intro h
  rcases List.mem_cons.mp h with h | h
  · simp at h
  · rcases List.mem_append.mp h with h | h
    · rcases joinComma_mem _ _ h with h | ⟨g, hg, hcg⟩
      · simp at h
      · rcases List.mem_map.mp hg with ⟨p, _, rfl⟩
        rcases List.mem_append.mp hcg with h2 | h2
        · exact jsonQuote_ne_nl p.1 _ h2 rfl
        · rcases List.mem_cons.mp h2 with h3 | h3
          · simp at h3
          · exact jsonLeaf_ne_nl p.2 _ h3 rfl
    · simp at h

/-- Once the process-wide flag is set, further constructions warn nothing. -/
theorem constructMany_after_warned :
    ∀ n, LambdaLogger.constructMany true n true = (true, []) := by
  intro n
  induction n with
  | zero => rfl
  | succ k ih => simp [LambdaLogger.constructMany, LambdaLogger.construct, ih]

/-- C9 counterexample: a metadata field named `_logLevel` overwrites the
synthetic `_logLevel` field (the `Object.assign` runs after the object
literal), so the emitted object's `_logLevel` is not the call's level,
refuting the claim's universal field description. -/
theorem lambda_fallback_counterexample :
    List.lookup "_logLevel"
        (LambdaLogger.fallbackLogObj .info "App" (.str "hi")
          (some [("_logLevel", .str "debug")]))
      = some (.str "debug")
    ∧ (JLeaf.str "debug") ≠ (JLeaf.str (levelName .info)) := by
  decide

/-- C9 (amended): when the backend is absent, every structured-strategy
log call emits exactly one single-line encoded object whose fields are
`_logLevel` set to the level, `_tags` the one-element list of the logger
name, `msg` holding the text (or the non-string message folded in) and the
metadata fields alongside — *provided* the metadata supplies none of the
synthetic keys `_logLevel`/`_tags`/`msg`, which would overwrite the
synthetic fields; and the missing-backend warning is emitted exactly once
per process lifetime (at first construction), not once per call. -/
theorem lambda_fallback_amended :
    (∀ (level : LogLevel) (name : String) (msg : JLeaf)
        (meta : Option (List (String × JLeaf))),
        (LambdaLogger.fallbackEmit level name msg meta).length = 1)
    ∧ (∀ (level : LogLevel) (name : String) (msg : JLeaf)
          (meta : Option (List (String × JLeaf))),
        ∀ line ∈ LambdaLogger.fallbackEmit level name msg meta, '\n' ∉ line.data)
    ∧ (∀ (level : LogLevel) (name s : String) (meta : List (String × JLeaf)),
        (∀ p ∈ meta, p.1 ≠ "_logLevel" ∧ p.1 ≠ "_tags" ∧ p.1 ≠ "msg") →
        meta.Pairwise (fun p q => p.1 ≠ q.1) →
        LambdaLogger.fallbackLogObj level name (.str s) (some meta)
          = [("_logLevel", .str (levelName level)), ("_tags", .tags [name]),
             ("msg", .str s)] ++ meta)
    ∧ (∀ (level : LogLevel) (name : String) (msg : JLeaf)
          (meta : List (String × JLeaf)),
        (∀ t, msg ≠ .str t) →
        (∀ p ∈ meta, p.1 ≠ "_logLevel" ∧ p.1 ≠ "_tags" ∧ p.1 ≠ "msg") →
        meta.Pairwise (fun p q => p.1 ≠ q.1) →
        LambdaLogger.fallbackLogObj level name msg (some meta)
          = [("_logLevel", .str (levelName level)), ("_tags", .tags [name]),
             ("msg", msg)] ++ meta)
    ∧ (∀ n, (LambdaLogger.constructMany true (n + 1) false).2 = [lambdaWarnText]) := by
  refine ⟨fun _ _ _ _ => rfl, ?_, ?_, ?_, ?_⟩
  · intro level name msg meta line hline
    rcases List.mem_singleton.mp hline with rfl
    exact jsonStringifyObj_ne_nl _
  · intro level name s meta hfresh hpw
    have step : LambdaLogger.fallbackLogObj level name (.str s) (some meta)
        = objAssign [("_logLevel", .str (levelName level)), ("_tags", .tags [name]),
            ("msg", .str s)] meta := rfl
    rw [step, objAssign_append meta _ ?_ hpw]
    intro p hp q hq
    have h3 := hfresh p hp
    simp only [List.mem_cons, List.mem_singleton] at hq
    rcases hq with rfl | rfl | rfl | hq
    · exact h3.1.symm
    · exact h3.2.1.symm
    · exact h3.2.2.symm
    · simp at hq
  · intro level name msg meta hns hfresh hpw
    have step : LambdaLogger.fallbackLogObj level name msg (some meta)
        = objAssign [("_logLevel", .str (levelName level)), ("_tags", .tags [name]),
            ("msg", msg)] meta := by
      cases msg with
      | str t => exact absurd rfl (hns t)
      | num k => rfl
      | undef => rfl
      | tags l => rfl
    rw [step, objAssign_append meta _ ?_ hpw]
    intro p hp q hq
    have h3 := hfresh p hp
    simp only [List.mem_cons, List.mem_singleton] at hq
    rcases hq with rfl | rfl | rfl | hq
    · exact h3.1.symm
    · exact h3.2.1.symm
    · exact h3.2.2.symm
    · simp at hq
  · intro n
    simp [LambdaLogger.constructMany, LambdaLogger.construct, constructMany_after_warned n]

/-- Witness for C9 (amended) at concrete calls: a string message with one
plain metadata field, a numeric message, and three constructions emitting
one warning. -/
theorem lambda_fallback_amended_witness :
    LambdaLogger.fallbackLogObj .info "App" (.str "hi") (some [("a", .num 1)])
      = [("_logLevel", .str "info"), ("_tags", .tags ["App"]),
         ("msg", .str "hi"), ("a", .num 1)]
    ∧ LambdaLogger.fallbackLogObj .warn "App" (.num 42) (some [("a", .num 1)])
        = [("_logLevel", .str "warn"), ("_tags", .tags ["App"]),
           ("msg", .num 42), ("a", .num 1)]
    ∧ (LambdaLogger.constructMany true 3 false).2 = [lambdaWarnText]
    ∧ '\n' ∉ (jsonStringifyObj
        (LambdaLogger.fallbackLogObj .info "App" (.str "hi")
          (some [("a", .num 1)]))).data :=
  by
  refine ⟨?_, ?_, ?_, ?_⟩
  · simpa using lambda_fallback_amended.2.2.1 .info "App" "hi" [("a", .num 1)] (by decide) (by simp)
  · simpa using lambda_fallback_amended.2.2.2.1 .warn "App" (.num 42) [("a", .num 1)] (by intro t; exact fun h => JLeaf.noConfusion h) (by decide) (by simp)
  · exact lambda_fallback_amended.2.2.2.2 2
  · exact lambda_fallback_amended.2.1 .info "App" (.str "hi") (some [("a", .num 1)]) _ (List.mem_singleton.mpr rfl)

/-! ## C10 — the `{ msg, ...meta }` merge (corrected) -/

/-- C10 counterexample: a caller-supplied metadata field named `msg` *does*
collide with and replace the synthetic `msg` key — the spread runs after
the literal's `msg` property, so `{ msg: 1, ...{msg: 2} }` is `{msg: 2}`
and the message value is lost. -/
theorem spread_msg_collision_counterexample :
    spreadMsgMeta (YScalar.num 1) [("msg", YScalar.num 2)] = [("msg", YScalar.num 2)]
    ∧ List.lookup "msg" (spreadMsgMeta (YScalar.num 1) [("msg", YScalar.num 2)])
        ≠ some (YScalar.num 1) := by
  decide

/-- C10 (amended): for a non-string message with metadata, the object
handed to serialization is `{ msg: message }` with the metadata fields
spread after it; when the metadata has no `msg` key the synthetic `msg`
survives in first position with the metadata fields alongside, but a
caller-supplied `msg` field overwrites (replaces) the synthetic key. -/
theorem spread_msg_meta_amended :
    (∀ (msg : YScalar) (meta : List (String × YScalar)),
        (∀ p ∈ meta, p.1 ≠ "msg") → meta.Pairwise (fun p q => p.1 ≠ q.1) →
        spreadMsgMeta msg meta = ("msg", msg) :: meta)
    ∧ (∀ msg v : YScalar, spreadMsgMeta msg [("msg", v)] = [("msg", v)]) := by
  constructor
  · intro msg meta hfresh hpw
    have step := objAssign_append meta [("msg", msg)] ?_ hpw
    · simpa [spreadMsgMeta] using step
    · intro p hp q hq
      rcases List.mem_singleton.mp hq with rfl
      exact (hfresh p hp).symm
  · intro msg v
    simp [spreadMsgMeta, objAssign, objInsert]

/-- Witness for C10 (amended) at a concrete message and metadata. -/
theorem spread_msg_meta_amended_witness :
    spreadMsgMeta (YScalar.num 7) [("usage", YScalar.num 95)]
      = [("msg", YScalar.num 7), ("usage", YScalar.num 95)] :=
  spread_msg_meta_amended.1 (YScalar.num 7) [("usage", YScalar.num 95)]
    (by decide) (by simp)

end Log4js
